import Mathlib

/-
Formal model of the UAV strategic-deconfliction core:
  * trajectory_calculator.py (TrajectoryCalculator): waypoint-time
    normalization, dense trajectory sampling, speed and heading derivation;
  * deconfliction_engine.py (DeconflictionEngine): pairwise conflict
    detection over merged time grids, conflict records, conflict reports;
  * utils.py: 3D distance and timed linear interpolation helpers.

Modelling conventions, used throughout:
  * Python floats are modelled as exact rationals (ℚ); all control flow in
    the source compares numbers exactly, and every comparison the code makes
    is preserved verbatim on ℚ.
  * `math.sqrt` values are kept exact: wherever the source stores or
    compares a Euclidean distance `sqrt(q)`, the model stores the radicand
    `q : ℚ` (an exact value) and performs the source's comparison
    `sqrt(q) < b` through the equivalent decidable test
    `0 < b ∧ q < b^2` (`sqrtLtB`, proved equivalent to the real-number
    comparison in `sqrtLtB_eq_true_iff`).  Derived real-valued quantities
    (`Conflict.distance`, `Conflict.severity_score`, point speeds and
    headings) are defined over ℝ from those exact radicands.
  * Python exceptions are modelled with `Except PyError`: the unguarded
    divisions of the source (`wp['time'] / max(...)` in
    `_normalize_waypoint_times`, `(safety_buffer - distance) / safety_buffer`
    in `_create_conflict_record`) return `.error .zeroDivision` exactly when
    Python would raise ZeroDivisionError.  The sampling `while` loop of
    `calculate_trajectory` does not terminate when `start_time <= end_time`
    and `time_step <= 0`; that divergence is flagged as
    `.error .nonTermination`.
-/

/-- Failure modes of the Python core: an unguarded division by zero
(ZeroDivisionError) and divergence of the sampling while loop. -/
inductive PyError where
  | zeroDivision : PyError
  | nonTermination : PyError
deriving DecidableEq

/-- Input waypoint (trajectory_calculator.py): `x`, `y` are required float
fields; `z` and `time` may be absent from the dictionary (`wp.get('z', 50.0)`
and the `all('time' in wp ...)` check), hence `Option`. -/
structure Waypoint where
  x : ℚ
  y : ℚ
  z : Option ℚ
  time : Option ℚ
deriving DecidableEq

/-- A fully positioned, timed point: the shape of a normalized waypoint
(`{x, y, z, time}` built by `_normalize_waypoint_times`) and of the position
dictionaries the engine interpolates. -/
structure P4 where
  x : ℚ
  y : ℚ
  z : ℚ
  time : ℚ
deriving DecidableEq

/-- Sampled trajectory point (`calculate_trajectory`): exact time/position,
with the derived kinematics (speed, heading) as real numbers. -/
structure TrajPoint where
  time : ℚ
  x : ℚ
  y : ℚ
  z : ℚ
  speed : ℝ
  heading : ℝ

/-- The position fields of a trajectory point.  The Python engine passes the
whole point dictionary around; only `x`, `y`, `z`, `time` are ever read
downstream, so the model projects to those. -/
def TrajPoint.toP4 (p : TrajPoint) : P4 := ⟨p.x, p.y, p.z, p.time⟩

/-- One entry of `other_trajectories` in `check_conflicts`:
`{'flight_id': ..., 'trajectory': ...}`. -/
structure Flight where
  flight_id : String
  trajectory : List TrajPoint

/-- The raw `time` values of a waypoint list (all waypoints carry `time` on
every path that reads this, per the `all('time' in wp)` guard). -/
def rawTimes (wps : List Waypoint) : List ℚ := wps.map fun w => w.time.getD 0

/-- Python's `max(wp['time'] for wp in waypoints)` (the caller guarantees a
nonempty list; the `[]` branch is dead and returns 0). -/
def maxRawTime (wps : List Waypoint) : ℚ :=
  match rawTimes wps with
  | [] => 0
  | t :: ts => ts.foldl max t

/-- Sorting key used by `_normalize_waypoint_times`:
`sorted(normalized, key=lambda x: x['time'])` (a stable sort by time; a
stable insertion sort produces the identical list). -/
def timeLe (a b : P4) : Prop := a.time ≤ b.time

instance : DecidableRel timeLe := fun a b => inferInstanceAs (Decidable (a.time ≤ b.time))

instance : IsTotal P4 timeLe := ⟨fun a b => le_total a.time b.time⟩

instance : IsTrans P4 timeLe := ⟨fun _ _ _ h1 h2 => le_trans h1 h2⟩

/-- `sorted(normalized, key=lambda x: x['time'])`. -/
def sortByTime (l : List P4) : List P4 := List.insertionSort timeLe l

/-- TrajectoryCalculator._normalize_waypoint_times.  When every waypoint has
an explicit `time`, Python computes
`start_time + (wp['time'] / max(raw times)) * mission_duration`, raising
ZeroDivisionError when the maximum raw time is 0 (modelled as
`.error .zeroDivision`); otherwise indices are spread evenly.  `z` defaults
to 50. -/
def normalize_waypoint_times (wps : List Waypoint) (start_time end_time : ℚ) :
    Except PyError (List P4) :=
  if wps.isEmpty then .ok []
  else if wps.all (fun w => w.time.isSome) then
    if maxRawTime wps = 0 then .error .zeroDivision
    else .ok (sortByTime (wps.map fun w =>
      ⟨w.x, w.y, w.z.getD 50,
        start_time + (w.time.getD 0 / maxRawTime wps) * (end_time - start_time)⟩))
  else
    .ok (sortByTime (wps.mapIdx fun i w =>
      ⟨w.x, w.y, w.z.getD 50,
        start_time +
          (if 1 < wps.length then (i : ℚ) / ((wps.length : ℚ) - 1) else 0) *
            (end_time - start_time)⟩))

/-- TrajectoryCalculator._interpolate_position_at_time.  Returns `none` only
for an empty waypoint list (Python's `return None`).  The linear
interpolation divides by `wp2.time - wp1.time`; Python would raise only if
the first bracketing segment had equal times equal to `target_time`, which
cannot happen (any such segment is preceded by a bracketing segment of
positive length or caught by the `target_time <= waypoints[0]['time']`
guard), so the total ℚ division is exact here. -/
def interpolate_position_at_time (wps : List P4) (target_time : ℚ) : Option P4 :=
  match wps with
  | [] => none
  | w0 :: rest =>
    if target_time ≤ w0.time then some w0
    else if ((w0 :: rest).getLastD w0).time ≤ target_time then some ((w0 :: rest).getLastD w0)
    else
      match ((w0 :: rest).zip rest).find? (fun ab =>
          decide (ab.1.time ≤ target_time) && decide (target_time ≤ ab.2.time)) with
      | some (a, b) =>
        some ⟨a.x + (target_time - a.time) / (b.time - a.time) * (b.x - a.x),
          a.y + (target_time - a.time) / (b.time - a.time) * (b.y - a.y),
          a.z + (target_time - a.time) / (b.time - a.time) * (b.z - a.z), target_time⟩
      | none => some ((w0 :: rest).getLastD w0)

/-- Squared 3D segment length between two timed points; Python computes
`math.sqrt` of this value. -/
def segDistSq (a b : P4) : ℚ := (b.x - a.x) ^ 2 + (b.y - a.y) ^ 2 + (b.z - a.z) ^ 2

/-- TrajectoryCalculator._calculate_speed_at_time.  The first segment with
`wp1.time <= t <= wp2.time` and positive duration yields
`clamp(distance / duration, 5, 30)` (a segment that brackets `t` with zero
duration is skipped: Python `return`s only under `time_diff > 0`); with no
such segment the default speed 15 is returned, and 0 for fewer than two
waypoints. -/
noncomputable def calculate_speed_at_time (wps : List P4) (target_time : ℚ) : ℝ :=
  if wps.length < 2 then 0
  else
    match (wps.zip wps.tail).find? (fun ab =>
        decide (ab.1.time ≤ target_time) && decide (target_time ≤ ab.2.time) &&
          decide (0 < ab.2.time - ab.1.time)) with
    | some (a, b) =>
      max 5 (min 30 (Real.sqrt ((segDistSq a b : ℚ) : ℝ) / ((b.time - a.time : ℚ) : ℝ)))
    | none => 15

/-- Python's `math.atan2`. -/
noncomputable def atan2 (y x : ℝ) : ℝ :=
  if 0 < x then Real.arctan (y / x)
  else if x < 0 then
    (if 0 ≤ y then Real.arctan (y / x) + Real.pi else Real.arctan (y / x) - Real.pi)
  else if 0 < y then Real.pi / 2
  else if y < 0 then -(Real.pi / 2)
  else 0

/-- TrajectoryCalculator._calculate_heading_at_time: `atan2(dy, dx)` in
degrees for the first segment bracketing `target_time`, 0 otherwise. -/
noncomputable def calculate_heading_at_time (wps : List P4) (target_time : ℚ) : ℝ :=
  if wps.length < 2 then 0
  else
    match (wps.zip wps.tail).find? (fun ab =>
        decide (ab.1.time ≤ target_time) && decide (target_time ≤ ab.2.time)) with
    | some (a, b) =>
      atan2 ((b.y - a.y : ℚ) : ℝ) ((b.x - a.x : ℚ) : ℝ) * 180 / Real.pi
    | none => 0

/-- Number of iterations of the sampling loop
`current_time = start_time; while current_time <= end_time: ...;
current_time += time_step` when it terminates: zero when the guard fails at
entry, and `⌊(end_time - start_time) / time_step⌋ + 1` for a positive step
(the value for `time_step ≤ 0 ∧ start_time ≤ end_time` is irrelevant:
`calculate_trajectory` flags that case as nontermination before sampling). -/
def numSamples (start_time end_time time_step : ℚ) : ℕ :=
  if end_time < start_time ∨ time_step ≤ 0 then 0
  else (⌊(end_time - start_time) / time_step⌋).toNat + 1

/-- The sample instants `start_time + i * time_step` visited by the loop. -/
def sampleTimes (start_time end_time time_step : ℚ) : List ℚ :=
  (List.range (numSamples start_time end_time time_step)).map fun i : ℕ =>
    start_time + (i : ℚ) * time_step

/-- Body of the sampling loop of `calculate_trajectory`: one trajectory
point per sample instant whose interpolated position resolves (Python's
`if position:`; the dictionary is nonempty whenever it is not None, so this
is exactly the `isSome` filter). -/
noncomputable def sampleLoop (nw : List P4) (start_time end_time time_step : ℚ) :
    List TrajPoint :=
  (sampleTimes start_time end_time time_step).filterMap fun t =>
    (interpolate_position_at_time nw t).map fun pos =>
      { time := t, x := pos.x, y := pos.y, z := pos.z,
        speed := calculate_speed_at_time nw t,
        heading := calculate_heading_at_time nw t }

/-- End-point guarantee of `calculate_trajectory`: when the loop produced
points and the last one is strictly before `end_time`, a synthetic point at
`end_time` is appended, positioned at the last normalized waypoint, with
speed 0 and the previous point's heading.  (`normalized_waypoints[-1]` is
well defined on this path: a produced point implies a nonempty waypoint
list; the default for `getLastD` is never used.) -/
noncomputable def appendFinal (pts : List TrajPoint) (nw : List P4) (end_time : ℚ) :
    List TrajPoint :=
  match pts.getLast? with
  | none => pts
  | some lastPt =>
    if lastPt.time < end_time then
      let fp := nw.getLastD ⟨0, 0, 0, 0⟩
      pts ++ [{ time := end_time, x := fp.x, y := fp.y, z := fp.z, speed := 0,
                heading := lastPt.heading }]
    else pts

/-- TrajectoryCalculator.calculate_trajectory. -/
noncomputable def calculate_trajectory (wps : List Waypoint)
    (start_time end_time time_step : ℚ) : Except PyError (List TrajPoint) :=
  if wps.length < 2 then .ok []
  else
    match normalize_waypoint_times wps start_time end_time with
    | .error err => .error err
    | .ok nw =>
      if start_time ≤ end_time ∧ time_step ≤ 0 then .error .nonTermination
      else .ok (appendFinal (sampleLoop nw start_time end_time time_step) nw end_time)

/-- Squared 3D Euclidean distance (utils.calculate_distance_3d computes the
square root of this value). -/
def calculate_distance_3d_sq (pos1 pos2 : P4) : ℚ :=
  (pos1.x - pos2.x) ^ 2 + (pos1.y - pos2.y) ^ 2 + (pos1.z - pos2.z) ^ 2

/-- Decidable rendering of the source's comparison `sqrt s < b` for an exact
radicand `s`: since `sqrt s ≥ 0`, it holds iff `0 < b ∧ s < b²`
(`sqrtLtB_eq_true_iff`). -/
def sqrtLtB (s b : ℚ) : Bool := decide (0 < b) && decide (s < b ^ 2)

/-- utils.interpolate_position: linear interpolation between two timed
points with the ratio clamped to [0, 1]; equal times return the first
point. -/
def interpolate_position (pos1 pos2 : TrajPoint) (target_time : ℚ) : P4 :=
  if pos1.time = pos2.time then pos1.toP4
  else
    let r := max 0 (min 1 ((target_time - pos1.time) / (pos2.time - pos1.time)))
    ⟨pos1.x + r * (pos2.x - pos1.x), pos1.y + r * (pos2.y - pos1.y),
      pos1.z + r * (pos2.z - pos1.z), target_time⟩

/-- The `before_point` scan of DeconflictionEngine._get_position_at_time:
the first-encountered point with the largest time strictly below
`target_time`. -/
def beforeStep (target_time : ℚ) (acc : Option TrajPoint) (pt : TrajPoint) :
    Option TrajPoint :=
  if pt.time < target_time then
    match acc with
    | none => some pt
    | some b => if b.time < pt.time then some pt else some b
  else acc

def scanBefore (traj : List TrajPoint) (target_time : ℚ) : Option TrajPoint :=
  traj.foldl (beforeStep target_time) none

/-- The `after_point` scan of DeconflictionEngine._get_position_at_time:
the first-encountered point with the smallest time strictly above
`target_time`.  (Python runs both scans in one pass with an `if`/`elif`;
the two variables are updated independently, so two passes compute the same
values.) -/
def afterStep (target_time : ℚ) (acc : Option TrajPoint) (pt : TrajPoint) :
    Option TrajPoint :=
  if target_time < pt.time then
    match acc with
    | none => some pt
    | some a => if pt.time < a.time then some pt else some a
  else acc

def scanAfter (traj : List TrajPoint) (target_time : ℚ) : Option TrajPoint :=
  traj.foldl (afterStep target_time) none

/-- DeconflictionEngine._get_position_at_time: exact match first, then
two-sided interpolation, then whichever single side exists, else None. -/
def get_position_at_time (traj : List TrajPoint) (target_time : ℚ) : Option P4 :=
  match traj.find? (fun pt => decide (pt.time = target_time)) with
  | some pt => some pt.toP4
  | none =>
    match scanBefore traj target_time, scanAfter traj target_time with
    | some b, some a => some (interpolate_position b a target_time)
    | some b, none => some b.toP4
    | none, some a => some a.toP4
    | none, none => none

/-- Conflict record (DeconflictionEngine._create_conflict_record).  The
source stores `distance = sqrt(distanceSq)` and
`severity_score = max(0, (safety_buffer - distance) / safety_buffer)`; the
model stores the exact radicand `distanceSq` and recovers those real values
as `Conflict.distance` and `Conflict.severity_score`.  The `description`
string (decimal float formatting) is omitted; nothing reads it. -/
structure Conflict where
  type : String
  time : ℚ
  locX : ℚ
  locY : ℚ
  locZ : ℚ
  distanceSq : ℚ
  safety_buffer : ℚ
  severity : String
  other_flight_id : String
  primary_position : P4
  other_position : P4

/-- The real distance a conflict record carries. -/
noncomputable def Conflict.distance (c : Conflict) : ℝ := Real.sqrt (c.distanceSq : ℝ)

/-- `severity_score = max(0, (safety_buffer - distance) / safety_buffer)`. -/
noncomputable def Conflict.severity_score (c : Conflict) : ℝ :=
  max 0 (((c.safety_buffer : ℝ) - c.distance) / (c.safety_buffer : ℝ))

/-- DeconflictionEngine._create_conflict_record.  The severity-score
division raises ZeroDivisionError when `safety_buffer = 0` (modelled as the
error branch; every caller has already established
`distance < safety_buffer`, which forces `safety_buffer > 0`).  The
severity thresholds `distance < 0.5 * b` and `distance < 0.8 * b` are the
source's comparisons of the real distance, rendered through `sqrtLtB`. -/
def create_conflict_record (primary_pos other_pos : P4) (time_point : ℚ) (dsq : ℚ)
    (other_flight_id : String) (safety_buffer : ℚ) : Except PyError Conflict :=
  if safety_buffer = 0 then .error .zeroDivision
  else .ok
    { type := "spatial"
      time := time_point
      locX := (primary_pos.x + other_pos.x) / 2
      locY := (primary_pos.y + other_pos.y) / 2
      locZ := (primary_pos.z + other_pos.z) / 2
      distanceSq := dsq
      safety_buffer := safety_buffer
      severity :=
        if sqrtLtB dsq ((0.5 : ℚ) * safety_buffer) then "HIGH"
        else if sqrtLtB dsq ((0.8 : ℚ) * safety_buffer) then "MEDIUM"
        else "LOW"
      other_flight_id := other_flight_id
      primary_position := primary_pos
      other_position := other_pos }

/-- The merged time grid of DeconflictionEngine._detect_trajectory_conflicts:
`sorted(set(primary times) | set(other times))`. -/
def mergedTimes (p o : List TrajPoint) : List ℚ :=
  List.insertionSort (fun a b : ℚ => a ≤ b)
    ((p.map (fun pt => pt.time) ++ o.map (fun pt => pt.time)).dedup)

/-- Body of DeconflictionEngine._detect_trajectory_conflicts over a list of
time instants: at each instant both positions are resolved; if both exist
and `distance < safety_buffer` (the `sqrtLtB` comparison of the exact
radicand) a conflict record is accumulated, in instant order. -/
def detectLoop (p o : List TrajPoint) (other_flight_id : String) (safety_buffer : ℚ) :
    List ℚ → Except PyError (List Conflict)
  | [] => .ok []
  | t :: ts =>
    match get_position_at_time p t, get_position_at_time o t with
    | some pp, some op =>
      let dsq := calculate_distance_3d_sq pp op
      if sqrtLtB dsq safety_buffer then
        match create_conflict_record pp op t dsq other_flight_id safety_buffer with
        | .error err => .error err
        | .ok c =>
          match detectLoop p o other_flight_id safety_buffer ts with
          | .error err => .error err
          | .ok rest => .ok (c :: rest)
      else detectLoop p o other_flight_id safety_buffer ts
    | _, _ => detectLoop p o other_flight_id safety_buffer ts

/-- DeconflictionEngine._detect_trajectory_conflicts. -/
def detect_trajectory_conflicts (primary_traj other_traj : List TrajPoint)
    (other_flight_id : String) (safety_buffer : ℚ) : Except PyError (List Conflict) :=
  detectLoop primary_traj other_traj other_flight_id safety_buffer
    (mergedTimes primary_traj other_traj)

/-- The per-flight loop of check_conflicts: concatenates each flight's
conflicts and accumulates
`total_checks += len(primary_trajectory) * len(other_trajectory)`. -/
def checkLoop (primary : List TrajPoint) (safety_buffer : ℚ) :
    List Flight → Except PyError (List Conflict × ℕ)
  | [] => .ok ([], 0)
  | f :: fs =>
    match detect_trajectory_conflicts primary f.trajectory f.flight_id safety_buffer with
    | .error err => .error err
    | .ok cs =>
      match checkLoop primary safety_buffer fs with
      | .error err => .error err
      | .ok (rest, tot) =>
        .ok (cs ++ rest, primary.length * f.trajectory.length + tot)

/-- The `summary` dictionary of a conflict report. -/
structure Summary where
  total_checks : ℕ
  spatial_violations : ℕ
  temporal_violations : ℕ
  safe_segments : ℕ
deriving DecidableEq

/-- The dictionary returned by check_conflicts. -/
structure Report where
  conflicts : List Conflict
  summary : Summary
  is_safe : Bool
  total_conflicts : ℕ

/-- Sort order of `conflicts.sort(key=lambda x: (x['severity_score'],
x['time']))`.  Within one call every record carries the same positive
`safety_buffer`, and on such records the score is strictly decreasing in
the distance, so ascending `(severity_score, time)` is exactly descending
squared distance with ascending time as tie-break; both Python's sort and
insertion sort are stable, hence produce the identical list. -/
def conflictRel (a b : Conflict) : Prop :=
  b.distanceSq < a.distanceSq ∨ (a.distanceSq = b.distanceSq ∧ a.time ≤ b.time)

instance : DecidableRel conflictRel := fun a b =>
  inferInstanceAs
    (Decidable (b.distanceSq < a.distanceSq ∨ (a.distanceSq = b.distanceSq ∧ a.time ≤ b.time)))

/-- DeconflictionEngine.check_conflicts: per-flight detection, severity
classification counts, sort, and the report (`is_safe` is
`len(conflicts) == 0`). -/
def check_conflicts (primary_trajectory : List TrajPoint) (other_trajectories : List Flight)
    (safety_buffer : ℚ) : Except PyError Report :=
  match checkLoop primary_trajectory safety_buffer other_trajectories with
  | .error err => .error err
  | .ok (conflicts, total) =>
    .ok { conflicts := List.insertionSort conflictRel conflicts
          summary :=
            { total_checks := total
              spatial_violations := conflicts.countP (fun c => c.type == "spatial")
              temporal_violations := conflicts.countP (fun c => c.type == "temporal")
              safe_segments := 0 }
          is_safe := conflicts.isEmpty
          total_conflicts := conflicts.length }

/-! ### Bridging the exact-radicand encoding back to real-number comparisons -/

/-- The decidable test `sqrtLtB s b` is exactly the source's float comparison
`sqrt s < b` read over the reals. -/
theorem sqrtLtB_eq_true_iff (s b : ℚ) : sqrtLtB s b = true ↔ Real.sqrt (s : ℝ) < (b : ℝ) := by
  unfold sqrtLtB
  simp only [Bool.and_eq_true, decide_eq_true_eq]
  constructor
  · rintro ⟨hb, hs⟩
    have hb' : (0 : ℝ) < (b : ℝ) := by exact_mod_cast hb
    rw [Real.sqrt_lt' hb']
    exact_mod_cast hs
  · intro h
    by_cases hb : 0 < b
    · have hb' : (0 : ℝ) < (b : ℝ) := by exact_mod_cast hb
      rw [Real.sqrt_lt' hb'] at h
      exact ⟨hb, by exact_mod_cast h⟩
    · exfalso
      have hble : (b : ℝ) ≤ 0 := by exact_mod_cast not_lt.mp hb
      exact absurd (lt_of_le_of_lt (Real.sqrt_nonneg _) h) (not_lt.mpr hble)

/-- Squared distances are nonnegative. -/
theorem calculate_distance_3d_sq_nonneg (a b : P4) : 0 ≤ calculate_distance_3d_sq a b :=
  add_nonneg (add_nonneg (sq_nonneg _) (sq_nonneg _)) (sq_nonneg _)

/-! ### Conflict-record and detection-loop lemmas -/

/-- A successfully built conflict record determines every field from its
arguments, and witnesses that the buffer was nonzero. -/
theorem create_ok_fields {pp op : P4} {t dsq : ℚ} {fid : String} {b : ℚ} {c : Conflict}
    (h : create_conflict_record pp op t dsq fid b = .ok c) :
    b ≠ 0 ∧ c.type = "spatial" ∧ c.time = t ∧ c.distanceSq = dsq ∧ c.safety_buffer = b ∧
      c.severity = (if sqrtLtB dsq ((0.5 : ℚ) * b) then "HIGH"
        else if sqrtLtB dsq ((0.8 : ℚ) * b) then "MEDIUM" else "LOW") := by
  unfold create_conflict_record at h
  by_cases hb : b = 0
  · rw [if_pos hb] at h
    exact absurd h (by simp)
  · rw [if_neg hb] at h
    injection h with h
    subst h
    exact ⟨hb, rfl, rfl, rfl, rfl, rfl⟩

/-- The detection loop never fails: a record is only built under
`sqrtLtB dsq b = true`, which forces `b > 0`, so the severity-score division
is safe. -/
theorem detectLoop_ok (p o : List TrajPoint) (fid : String) (b : ℚ) (ts : List ℚ) :
    ∃ cs, detectLoop p o fid b ts = .ok cs := by
  induction ts with
  | nil => exact ⟨[], rfl⟩
  | cons t ts ih =>
    obtain ⟨cs, hcs⟩ := ih
    unfold detectLoop
    cases hp : get_position_at_time p t with
    | none => exact ⟨cs, hcs⟩
    | some pp =>
      cases ho : get_position_at_time o t with
      | none => exact ⟨cs, hcs⟩
      | some op =>
        simp only [hp, ho]
        by_cases hlt : sqrtLtB (calculate_distance_3d_sq pp op) b = true
        · have hbne : b ≠ 0 := by
            intro h0
            rw [h0] at hlt
            unfold sqrtLtB at hlt
            simp at hlt
          rw [if_pos hlt]
          unfold create_conflict_record
          rw [if_neg hbne, hcs]
          exact ⟨_, rfl⟩
        · rw [if_neg hlt]
          exact ⟨cs, hcs⟩

/-- Every conflict produced by the detection loop was built by
`create_conflict_record` from two resolved positions under a successful
buffer comparison. -/
theorem detectLoop_mem {p o : List TrajPoint} {fid : String} {b : ℚ} :
    ∀ {ts : List ℚ} {cs : List Conflict}, detectLoop p o fid b ts = .ok cs →
      ∀ c ∈ cs, ∃ pp op t, sqrtLtB (calculate_distance_3d_sq pp op) b = true ∧
        create_conflict_record pp op t (calculate_distance_3d_sq pp op) fid b = .ok c := by
  intro ts
  induction ts with
  | nil =>
    intro cs h c hc
    injection h with h
    subst h
    exact absurd hc (List.not_mem_nil c)
  | cons t ts ih =>
    intro cs h c hc
    unfold detectLoop at h
    revert h
    cases hp : get_position_at_time p t with
    | none => exact fun h => ih h c hc
    | some pp =>
      cases ho : get_position_at_time o t with
      | none => exact fun h => ih h c hc
      | some op =>
        simp only
        by_cases hlt : sqrtLtB (calculate_distance_3d_sq pp op) b = true
        · rw [if_pos hlt]
          cases hcr : create_conflict_record pp op t (calculate_distance_3d_sq pp op) fid b with
          | error err => intro h; exact absurd h (by simp)
          | ok c0 =>
            cases hrest : detectLoop p o fid b ts with
            | error err => intro h; exact absurd h (by simp)
            | ok rest =>
              intro h
              injection h with h
              subst h
              rcases List.mem_cons.mp hc with hceq | hcmem
              · subst hceq
                exact ⟨pp, op, t, hlt, hcr⟩
              · exact ih hrest c hcmem
        · rw [if_neg hlt]
          exact fun h => ih h c hc

/-- The per-flight loop never fails. -/
theorem checkLoop_ok (p : List TrajPoint) (b : ℚ) (fs : List Flight) :
    ∃ r, checkLoop p b fs = .ok r := by
  induction fs with
  | nil => exact ⟨([], 0), rfl⟩
  | cons f fs ih =>
    obtain ⟨⟨rest, tot⟩, hrest⟩ := ih
    obtain ⟨cs, hcs⟩ := detectLoop_ok p f.trajectory f.flight_id b
      (mergedTimes p f.trajectory)
    refine ⟨(cs ++ rest, p.length * f.trajectory.length + tot), ?_⟩
    unfold checkLoop detect_trajectory_conflicts
    rw [hcs, hrest]

/-- Every conflict accumulated across flights originates from
`create_conflict_record` under a successful buffer comparison (with the
flight id of some flight of the list). -/
theorem checkLoop_mem {p : List TrajPoint} {b : ℚ} :
    ∀ {fs : List Flight} {cs : List Conflict} {tot : ℕ}, checkLoop p b fs = .ok (cs, tot) →
      ∀ c ∈ cs, ∃ pp op t fid, sqrtLtB (calculate_distance_3d_sq pp op) b = true ∧
        create_conflict_record pp op t (calculate_distance_3d_sq pp op) fid b = .ok c := by
  intro fs
  induction fs with
  | nil =>
    intro cs tot h c hc
    injection h with h
    rw [show cs = ([] : List Conflict) from congrArg Prod.fst h.symm] at hc
    exact absurd hc (List.not_mem_nil c)
  | cons f fs ih =>
    intro cs tot h c hc
    unfold checkLoop at h
    revert h
    cases hdet : detect_trajectory_conflicts p f.trajectory f.flight_id b with
    | error err => intro h; exact absurd h (by simp)
    | ok cs0 =>
      cases hrest : checkLoop p b fs with
      | error err => intro h; exact absurd h (by simp)
      | ok r =>
        intro h
        injection h with h
        have hcs : cs = cs0 ++ r.1 := by
          have := congrArg Prod.fst h.symm
          simpa using this
        rw [hcs] at hc
        rcases List.mem_append.mp hc with hmem | hmem
        · obtain ⟨pp, op, t, hlt, hcr⟩ := detectLoop_mem hdet c hmem
          exact ⟨pp, op, t, f.flight_id, hlt, hcr⟩
        · exact ih (by rw [hrest]) c hmem

/-- `total_checks` accumulated by the per-flight loop is the sum of the
per-pair sample-count products. -/
theorem checkLoop_total {p : List TrajPoint} {b : ℚ} :
    ∀ {fs : List Flight} {cs : List Conflict} {tot : ℕ}, checkLoop p b fs = .ok (cs, tot) →
      tot = (fs.map fun f => p.length * f.trajectory.length).sum := by
  intro fs
  induction fs with
  | nil =>
    intro cs tot h
    injection h with h
    simpa using (congrArg Prod.snd h.symm)
  | cons f fs ih =>
    intro cs tot h
    unfold checkLoop at h
    revert h
    cases hdet : detect_trajectory_conflicts p f.trajectory f.flight_id b with
    | error err => intro h; exact absurd h (by simp)
    | ok cs0 =>
      cases hrest : checkLoop p b fs with
      | error err => intro h; exact absurd h (by simp)
      | ok r =>
        obtain ⟨cs1, tot1⟩ := r
        intro h
        injection h with h
        have htot : tot = p.length * f.trajectory.length + tot1 :=
          (congrArg Prod.snd h.symm).trans rfl
        have hih := ih hrest
        rw [List.map_cons, List.sum_cons, htot, hih]

/-- Destructuring a successful `check_conflicts` call into the loop result
and the report's fields. -/
theorem check_conflicts_ok_elim {p : List TrajPoint} {others : List Flight} {b : ℚ}
    {rep : Report} (h : check_conflicts p others b = .ok rep) :
    ∃ cs tot, checkLoop p b others = .ok (cs, tot) ∧
      rep.conflicts = List.insertionSort conflictRel cs ∧
      rep.summary.total_checks = tot ∧
      rep.summary.spatial_violations = cs.countP (fun c => c.type == "spatial") ∧
      rep.summary.temporal_violations = cs.countP (fun c => c.type == "temporal") ∧
      rep.summary.safe_segments = 0 ∧
      rep.is_safe = cs.isEmpty ∧ rep.total_conflicts = cs.length := by
  unfold check_conflicts at h
  revert h
  cases hloop : checkLoop p b others with
  | error err => intro h; exact absurd h (by simp)
  | ok r =>
    obtain ⟨cs, tot⟩ := r
    intro h
    injection h with h
    subst h
    exact ⟨cs, tot, rfl, rfl, rfl, rfl, rfl, rfl, rfl, rfl⟩

/-! ### Normalization lemmas -/

/-- Normalization succeeds whenever the only unguarded division cannot fire:
if every waypoint carries a time, the maximum raw time must be nonzero. -/
theorem normalize_ok (wps : List Waypoint) (s e : ℚ)
    (hmax : wps.all (fun w => w.time.isSome) = true → maxRawTime wps ≠ 0) :
    ∃ l, normalize_waypoint_times wps s e = .ok l := by
  unfold normalize_waypoint_times
  by_cases h0 : wps.isEmpty
  · rw [if_pos h0]
    exact ⟨[], rfl⟩
  · rw [if_neg h0]
    by_cases hall : wps.all (fun w => w.time.isSome) = true
    · rw [if_pos hall, if_neg (hmax hall)]
      exact ⟨_, rfl⟩
    · rw [if_neg hall]
      exact ⟨_, rfl⟩

/-- Normalization preserves the number of waypoints. -/
theorem normalize_length {wps : List Waypoint} {s e : ℚ} {l : List P4}
    (h : normalize_waypoint_times wps s e = .ok l) : l.length = wps.length := by
  unfold normalize_waypoint_times at h
  by_cases h0 : wps.isEmpty
  · rw [if_pos h0] at h
    injection h with h
    subst h
    rw [List.isEmpty_iff.mp h0]
    rfl
  · rw [if_neg h0] at h
    by_cases hall : wps.all (fun w => w.time.isSome) = true
    · rw [if_pos hall] at h
      by_cases hm : maxRawTime wps = 0
      · rw [if_pos hm] at h
        exact absurd h (by simp)
      · rw [if_neg hm] at h
        injection h with h
        subst h
        rw [sortByTime, (List.perm_insertionSort timeLe _).length_eq, List.length_map]
    · rw [if_neg hall] at h
      injection h with h
      subst h
      rw [sortByTime, (List.perm_insertionSort timeLe _).length_eq, List.length_mapIdx]

/-- The sampler's position interpolation resolves at every instant for a
nonempty waypoint list (Python returns None only on the empty list). -/
theorem interpolate_isSome (wps : List P4) (t : ℚ) (h : wps ≠ []) :
    (interpolate_position_at_time wps t).isSome := by
  match wps with
  | [] => exact absurd rfl h
  | w0 :: rest =>
    show (interpolate_position_at_time (w0 :: rest) t).isSome
    rw [interpolate_position_at_time]
    by_cases h1 : t ≤ w0.time
    · rw [if_pos h1]
      rfl
    · rw [if_neg h1]
      by_cases h2 : ((w0 :: rest).getLastD w0).time ≤ t
      · rw [if_pos h2]
        rfl
      · rw [if_neg h2]
        cases hf : ((w0 :: rest).zip rest).find? (fun ab =>
            decide (ab.1.time ≤ t) && decide (t ≤ ab.2.time)) with
        | some ab =>
          cases ab with
          | mk a b => rfl
        | none => rfl

/-! ### Sampling-grid lemmas -/

/-- For a well-formed window and positive step the loop runs
`⌊(e - s) / step⌋ + 1` times. -/
theorem numSamples_eq {s e step : ℚ} (hse : s ≤ e) (hstep : 0 < step) :
    numSamples s e step = (⌊(e - s) / step⌋).toNat + 1 := by
  unfold numSamples
  rw [if_neg]
  push_neg
  exact ⟨hse, hstep⟩

/-- The first sample instant is `start_time` itself. -/
theorem sampleTimes_head {s e step : ℚ} (hse : s ≤ e) (hstep : 0 < step) :
    (sampleTimes s e step).head? = some s := by
  unfold sampleTimes
  rw [numSamples_eq hse hstep, List.range_succ_eq_map, List.map_cons, List.head?_cons]
  norm_num

/-- The sample grid is nonempty for a well-formed window. -/
theorem sampleTimes_ne_nil {s e step : ℚ} (hse : s ≤ e) (hstep : 0 < step) :
    sampleTimes s e step ≠ [] := by
  intro h
  have := congrArg List.head? h
  rw [sampleTimes_head hse hstep] at this
  exact absurd this (by simp)

/-- Every sample instant respects the loop guard `current_time <= end_time`. -/
theorem sampleTimes_le_end {s e step : ℚ} (hse : s ≤ e) (hstep : 0 < step) :
    ∀ t ∈ sampleTimes s e step, t ≤ e := by
  intro t ht
  unfold sampleTimes at ht
  obtain ⟨i, hi, rfl⟩ := List.mem_map.mp ht
  rw [numSamples_eq hse hstep, List.mem_range, Nat.lt_succ_iff] at hi
  have hfl : (0 : ℤ) ≤ ⌊(e - s) / step⌋ :=
    Int.floor_nonneg.mpr (div_nonneg (by linarith) hstep.le)
  have hcast : (i : ℚ) ≤ ((⌊(e - s) / step⌋ : ℤ) : ℚ) := by
    rw [← Int.toNat_of_nonneg hfl]
    exact_mod_cast hi
  have hmul : (i : ℚ) * step ≤ ((⌊(e - s) / step⌋ : ℤ) : ℚ) * step :=
    mul_le_mul_of_nonneg_right hcast hstep.le
  have hfloor : ((⌊(e - s) / step⌋ : ℤ) : ℚ) * step ≤ (e - s) / step * step :=
    mul_le_mul_of_nonneg_right (Int.floor_le _) hstep.le
  rw [div_mul_cancel₀ _ hstep.ne'] at hfloor
  linarith

/-- The sample instants increase weakly (strictly, in fact, but weak
monotonicity is what the output ordering needs). -/
theorem sampleTimes_pairwise (s e : ℚ) {step : ℚ} (hstep : 0 < step) :
    (sampleTimes s e step).Pairwise (fun a b : ℚ => a ≤ b) := by
  unfold sampleTimes
  rw [List.pairwise_map]
  have := List.pairwise_lt_range (numSamples s e step)
  refine this.imp ?_
  intro i j hij
  have : (i : ℚ) ≤ (j : ℚ) := by exact_mod_cast hij.le
  nlinarith

/-! ### Sampling-loop lemmas -/

/-- With a nonempty normalized waypoint list every sample instant yields a
point, and the produced times are exactly the sample instants. -/
theorem sampleLoop_times {nw : List P4} (hnw : nw ≠ []) (s e step : ℚ) :
    (sampleLoop nw s e step).map (fun p => p.time) = sampleTimes s e step := by
  unfold sampleLoop
  generalize sampleTimes s e step = ts
  induction ts with
  | nil => rfl
  | cons t ts ih =>
    cases hi : interpolate_position_at_time nw t with
    | none =>
      have := interpolate_isSome nw t hnw
      rw [hi] at this
      exact absurd this (by simp)
    | some pos =>
      simp only [List.filterMap_cons, hi, Option.map_some', List.map_cons]
      rw [ih]

/-- Every point built by the sampling loop carries the speed computed by
`_calculate_speed_at_time` at its instant. -/
theorem sampleLoop_mem_speed {nw : List P4} {s e step : ℚ} {q : TrajPoint}
    (hq : q ∈ sampleLoop nw s e step) :
    ∃ t, q.speed = calculate_speed_at_time nw t := by
  obtain ⟨t, _, hF⟩ := List.mem_filterMap.mp hq
  cases hi : interpolate_position_at_time nw t with
  | none =>
    rw [hi] at hF
    exact absurd hF (by simp)
  | some pos =>
    rw [hi] at hF
    simp only [Option.map_some'] at hF
    injection hF with hF
    exact ⟨t, by rw [← hF]⟩

/-- The clamp `max(5, min(30, distance / duration))` and the default 15 both
lie in `[5, 30]`; only lists of fewer than two waypoints escape the range. -/
theorem calculate_speed_at_time_range (wps : List P4) (t : ℚ) (h : ¬ wps.length < 2) :
    (5 : ℝ) ≤ calculate_speed_at_time wps t ∧ calculate_speed_at_time wps t ≤ 30 := by
  unfold calculate_speed_at_time
  rw [if_neg h]
  cases hf : (wps.zip wps.tail).find? (fun ab =>
      decide (ab.1.time ≤ t) && decide (t ≤ ab.2.time) &&
        decide (0 < ab.2.time - ab.1.time)) with
  | none => norm_num
  | some ab =>
    cases ab with
    | mk a b =>
      refine ⟨le_max_left _ _, max_le (by norm_num) (min_le_left _ _)⟩

/-! ### Position-lookup lemmas (detector side) -/

/-- One step of the `before_point` scan keeps the accumulator resolved. -/
theorem beforeStep_isSome {t : ℚ} {acc : Option TrajPoint} (pt : TrajPoint)
    (h : acc.isSome) : (beforeStep t acc pt).isSome := by
  unfold beforeStep
  cases acc with
  | none => exact absurd h (by simp)
  | some b =>
    by_cases hlt : pt.time < t
    · rw [if_pos hlt]
      show (if b.time < pt.time then some pt else some b).isSome = true
      by_cases hbt : b.time < pt.time
      · rw [if_pos hbt]
        rfl
      · rw [if_neg hbt]
        rfl
    · rw [if_neg hlt]
      rfl

/-- One step of the `after_point` scan keeps the accumulator resolved. -/
theorem afterStep_isSome {t : ℚ} {acc : Option TrajPoint} (pt : TrajPoint)
    (h : acc.isSome) : (afterStep t acc pt).isSome := by
  unfold afterStep
  cases acc with
  | none => exact absurd h (by simp)
  | some a =>
    by_cases hlt : t < pt.time
    · rw [if_pos hlt]
      show (if pt.time < a.time then some pt else some a).isSome = true
      by_cases hat : pt.time < a.time
      · rw [if_pos hat]
        rfl
      · rw [if_neg hat]
        rfl
    · rw [if_neg hlt]
      rfl

/-- The `before_point` scan resolves as soon as some point lies strictly
before the target time. -/
theorem scanBefore_isSome {t : ℚ} :
    ∀ (l : List TrajPoint) (acc : Option TrajPoint),
      (acc.isSome ∨ ∃ x ∈ l, x.time < t) → (l.foldl (beforeStep t) acc).isSome := by
  intro l
  induction l with
  | nil =>
    intro acc h
    rcases h with h | ⟨x, hx, _⟩
    · exact h
    · exact absurd hx (List.not_mem_nil x)
  | cons pt l ih =>
    intro acc h
    rw [List.foldl_cons]
    refine ih (beforeStep t acc pt) ?_
    by_cases hlt : pt.time < t
    · left
      unfold beforeStep
      rw [if_pos hlt]
      cases acc with
      | none => rfl
      | some b =>
        show (if b.time < pt.time then some pt else some b).isSome = true
        by_cases hbt : b.time < pt.time
        · rw [if_pos hbt]; rfl
        · rw [if_neg hbt]; rfl
    · rcases h with h | ⟨x, hx, hxt⟩
      · left
        exact beforeStep_isSome pt h
      · rcases List.mem_cons.mp hx with rfl | hx
        · exact absurd hxt hlt
        · right
          exact ⟨x, hx, hxt⟩

/-- The `after_point` scan resolves as soon as some point lies strictly
after the target time. -/
theorem scanAfter_isSome {t : ℚ} :
    ∀ (l : List TrajPoint) (acc : Option TrajPoint),
      (acc.isSome ∨ ∃ x ∈ l, t < x.time) → (l.foldl (afterStep t) acc).isSome := by
  intro l
  induction l with
  | nil =>
    intro acc h
    rcases h with h | ⟨x, hx, _⟩
    · exact h
    · exact absurd hx (List.not_mem_nil x)
  | cons pt l ih =>
    intro acc h
    rw [List.foldl_cons]
    refine ih (afterStep t acc pt) ?_
    by_cases hlt : t < pt.time
    · left
      unfold afterStep
      rw [if_pos hlt]
      cases acc with
      | none => rfl
      | some a =>
        show (if pt.time < a.time then some pt else some a).isSome = true
        by_cases hat : pt.time < a.time
        · rw [if_pos hat]; rfl
        · rw [if_neg hat]; rfl
    · rcases h with h | ⟨x, hx, hxt⟩
      · left
        exact afterStep_isSome pt h
      · rcases List.mem_cons.mp hx with rfl | hx
        · exact absurd hxt hlt
        · right
          exact ⟨x, hx, hxt⟩

/-- `_get_position_at_time` never returns None on a nonempty trajectory:
either an exact match exists, or the head of the list lies strictly on one
side of the target, making the corresponding scan succeed. -/
theorem get_position_isSome (traj : List TrajPoint) (t : ℚ) (h : traj ≠ []) :
    (get_position_at_time traj t).isSome := by
  unfold get_position_at_time
  cases hf : traj.find? (fun pt => decide (pt.time = t)) with
  | some pt => rfl
  | none =>
    obtain ⟨h0, rest, rfl⟩ := List.exists_cons_of_ne_nil h
    have hne : h0.time ≠ t := by
      have := List.find?_eq_none.mp hf h0 (List.mem_cons_self _ _)
      simpa using this
    rcases lt_or_gt_of_ne hne with hlt | hgt
    · have hb : (scanBefore (h0 :: rest) t).isSome :=
        scanBefore_isSome (h0 :: rest) none
          (Or.inr ⟨h0, List.mem_cons_self _ _, hlt⟩)
      cases hB : scanBefore (h0 :: rest) t with
      | none =>
        rw [hB] at hb
        exact absurd hb (by simp)
      | some b =>
        cases hA : scanAfter (h0 :: rest) t with
        | none => rfl
        | some a => rfl
    · have ha : (scanAfter (h0 :: rest) t).isSome :=
        scanAfter_isSome (h0 :: rest) none
          (Or.inr ⟨h0, List.mem_cons_self _ _, hgt⟩)
      cases hA : scanAfter (h0 :: rest) t with
      | none =>
        rw [hA] at ha
        exact absurd ha (by simp)
      | some a =>
        cases hB : scanBefore (h0 :: rest) t with
        | none => rfl
        | some b => rfl

/-- Facts true of every conflict of a successful report: type, buffer,
nonnegative radicand, the buffer comparison, and the severity string. -/
theorem report_conflict_facts {p : List TrajPoint} {others : List Flight} {b : ℚ}
    {rep : Report} (h : check_conflicts p others b = .ok rep) {c : Conflict}
    (hc : c ∈ rep.conflicts) :
    c.type = "spatial" ∧ c.safety_buffer = b ∧ 0 ≤ c.distanceSq ∧
      sqrtLtB c.distanceSq b = true ∧
      c.severity = (if sqrtLtB c.distanceSq ((0.5 : ℚ) * b) then "HIGH"
        else if sqrtLtB c.distanceSq ((0.8 : ℚ) * b) then "MEDIUM" else "LOW") := by
  obtain ⟨cs, tot, hloop, hconf, _, _, _, _, _, _⟩ := check_conflicts_ok_elim h
  rw [hconf] at hc
  have hc' : c ∈ cs := (List.mem_insertionSort conflictRel).mp hc
  obtain ⟨pp, op, t, fid, hlt, hcr⟩ := checkLoop_mem hloop c hc'
  obtain ⟨hbne, htype, htime, hdsq, hbuf, hsev⟩ := create_ok_fields hcr
  refine ⟨htype, hbuf, ?_, ?_, ?_⟩
  · rw [hdsq]
    exact calculate_distance_3d_sq_nonneg pp op
  · rw [hdsq]
    exact hlt
  · rw [hdsq]
    exact hsev

/-- C2: in every report returned by `check_conflicts`, each Conflict record
has distance strictly below the safety buffer used for that check (which it
also carries), and `is_safe` is true exactly when the conflicts list is
empty; in particular zero other flights yield `is_safe = true` with no
conflicts. -/
theorem c2_distance_invariant_and_is_safe (p : List TrajPoint) (others : List Flight)
    (b : ℚ) :
    (∀ rep, check_conflicts p others b = .ok rep →
      (∀ c ∈ rep.conflicts, c.distance < (b : ℝ) ∧ c.safety_buffer = b) ∧
      (rep.is_safe = true ↔ rep.conflicts = [])) ∧
    (∀ rep, check_conflicts p ([] : List Flight) b = .ok rep →
      rep.is_safe = true ∧ rep.conflicts = []) := by
  constructor
  · intro rep h
    constructor
    · intro c hc
      obtain ⟨_, hbuf, _, hlt, _⟩ := report_conflict_facts h hc
      exact ⟨(sqrtLtB_eq_true_iff _ _).mp hlt, hbuf⟩
    · obtain ⟨cs, tot, hloop, hconf, _, _, _, _, hsafe, _⟩ := check_conflicts_ok_elim h
      rw [hconf, hsafe]
      constructor
      · intro hempty
        rw [List.isEmpty_iff.mp hempty]
        rfl
      · intro hnil
        have hcs : cs = [] := by
          have hperm := List.perm_insertionSort conflictRel cs
          rw [hnil] at hperm
          exact hperm.symm.eq_nil
        rw [hcs]
        rfl
  · intro rep h
    obtain ⟨cs, tot, hloop, hconf, _, _, _, _, hsafe, _⟩ := check_conflicts_ok_elim h
    have hcs : cs = [] := by
      unfold checkLoop at hloop
      injection hloop with h2
      exact (congrArg Prod.fst h2).symm
    subst hcs
    rw [hconf, hsafe]
    exact ⟨rfl, rfl⟩

/-- C8: every conflict record has type 'spatial'; consequently the summary's
temporal-violation count is 0 and its spatial-violation count equals the
total number of conflicts. -/
theorem c8_only_spatial_conflicts (p : List TrajPoint) (others : List Flight) (b : ℚ) :
    ∀ rep, check_conflicts p others b = .ok rep →
      (∀ c ∈ rep.conflicts, c.type = "spatial") ∧
      rep.summary.temporal_violations = 0 ∧
      rep.summary.spatial_violations = rep.total_conflicts ∧
      rep.total_conflicts = rep.conflicts.length := by
  intro rep h
  obtain ⟨cs, tot, hloop, hconf, _, hspat, htemp, _, _, hlen⟩ := check_conflicts_ok_elim h
  have hall : ∀ c ∈ cs, c.type = "spatial" := by
    intro c hc
    obtain ⟨pp, op, t, fid, hlt, hcr⟩ := checkLoop_mem hloop c hc
    exact (create_ok_fields hcr).2.1
  refine ⟨?_, ?_, ?_, ?_⟩
  · intro c hc
    rw [hconf] at hc
    exact hall c ((List.mem_insertionSort conflictRel).mp hc)
  · rw [htemp]
    refine List.countP_eq_zero.mpr ?_
    intro c hc hbeq
    have h1 : c.type = "temporal" := beq_iff_eq.mp hbeq
    rw [hall c hc] at h1
    exact absurd h1 (by decide)
  · rw [hspat, hlen]
    refine List.countP_eq_length.mpr ?_
    intro c hc
    exact beq_iff_eq.mpr (hall c hc)
  · rw [hlen, hconf, (List.perm_insertionSort conflictRel cs).length_eq]

/-- C9: the summary's `total_checks` is the sum over the other flights of
the product of the two trajectories' sample counts. -/
theorem c9_total_checks_product_sum (p : List TrajPoint) (others : List Flight) (b : ℚ) :
    ∀ rep, check_conflicts p others b = .ok rep →
      rep.summary.total_checks = (others.map fun f => p.length * f.trajectory.length).sum := by
  intro rep h
  obtain ⟨cs, tot, hloop, _, htot, _, _, _, _, _⟩ := check_conflicts_ok_elim h
  rw [htot]
  exact checkLoop_total hloop

/-- C5: every emitted conflict's severity score is
`max(0, (safety_buffer - distance) / safety_buffer)` with the HIGH/MEDIUM/LOW
classification at `0.5` and `0.8` of the buffer, and the score function is
exactly 0 at the buffer boundary and exactly 1 at distance 0. -/
theorem c5_severity_score_and_classes (p : List TrajPoint) (others : List Flight) (b : ℚ) :
    (∀ rep, check_conflicts p others b = .ok rep → ∀ c ∈ rep.conflicts,
      c.severity_score = max 0 (((b : ℝ) - c.distance) / (b : ℝ)) ∧
      c.severity = (if c.distance < (0.5 : ℝ) * (b : ℝ) then "HIGH"
        else if c.distance < (0.8 : ℝ) * (b : ℝ) then "MEDIUM" else "LOW")) ∧
    (∀ c : Conflict, 0 < c.safety_buffer →
      (c.distance = (c.safety_buffer : ℝ) → c.severity_score = 0) ∧
      (c.distance = 0 → c.severity_score = 1)) := by
  constructor
  · intro rep h c hc
    obtain ⟨_, hbuf, _, _, hsev⟩ := report_conflict_facts h hc
    constructor
    · unfold Conflict.severity_score
      rw [hbuf]
    · rw [hsev]
      have hcast1 : (((0.5 : ℚ) * b : ℚ) : ℝ) = (0.5 : ℝ) * (b : ℝ) := by
        push_cast
        norm_num
      have hcast2 : (((0.8 : ℚ) * b : ℚ) : ℝ) = (0.8 : ℝ) * (b : ℝ) := by
        push_cast
        norm_num
      have iff1 : sqrtLtB c.distanceSq ((0.5 : ℚ) * b) = true ↔
          c.distance < (0.5 : ℝ) * (b : ℝ) := by
        rw [sqrtLtB_eq_true_iff, hcast1]
        exact Iff.rfl
      have iff2 : sqrtLtB c.distanceSq ((0.8 : ℚ) * b) = true ↔
          c.distance < (0.8 : ℝ) * (b : ℝ) := by
        rw [sqrtLtB_eq_true_iff, hcast2]
        exact Iff.rfl
      exact if_congr iff1 rfl (if_congr iff2 rfl rfl)
  · intro c hpos
    have hb0 : ((c.safety_buffer : ℚ) : ℝ) ≠ 0 := by
      have : (0 : ℝ) < ((c.safety_buffer : ℚ) : ℝ) := by exact_mod_cast hpos
      exact this.ne'
    constructor
    · intro hd
      unfold Conflict.severity_score
      rw [hd, sub_self, zero_div]
      exact max_self 0
    · intro hd
      unfold Conflict.severity_score
      rw [hd, sub_zero, div_self hb0]
      exact max_eq_right zero_le_one

/-- C10: on a nonempty trajectory the position lookup always resolves, so
with both trajectories nonempty every instant of the merged time grid
produces a distance check; the silently-skipped no-support case needs an
empty trajectory. -/
theorem c10_position_lookup_total (p o : List TrajPoint) (hp : p ≠ []) (ho : o ≠ []) :
    (∀ t, ∃ pos, get_position_at_time p t = some pos) ∧
    (∀ t ∈ mergedTimes p o,
      (get_position_at_time p t).isSome ∧ (get_position_at_time o t).isSome) := by
  constructor
  · intro t
    exact Option.isSome_iff_exists.mp (get_position_isSome p t hp)
  · intro t _
    exact ⟨get_position_isSome p t hp, get_position_isSome o t ho⟩

/-- Concrete instance of C10: two singleton trajectories, hypotheses
discharged at that input. -/
theorem c10_witness :
    (([⟨0, 0, 0, 0, 0, 0⟩] : List TrajPoint) ≠ []) ∧
    (([⟨10, 1, 1, 1, 0, 0⟩] : List TrajPoint) ≠ []) ∧
    ((∀ t, ∃ pos,
        get_position_at_time ([⟨0, 0, 0, 0, 0, 0⟩] : List TrajPoint) t = some pos) ∧
      (∀ t ∈ mergedTimes ([⟨0, 0, 0, 0, 0, 0⟩] : List TrajPoint)
          ([⟨10, 1, 1, 1, 0, 0⟩] : List TrajPoint),
        (get_position_at_time ([⟨0, 0, 0, 0, 0, 0⟩] : List TrajPoint) t).isSome ∧
        (get_position_at_time ([⟨10, 1, 1, 1, 0, 0⟩] : List TrajPoint) t).isSome)) :=
  ⟨by simp, by simp,
    c10_position_lookup_total [⟨0, 0, 0, 0, 0, 0⟩] [⟨10, 1, 1, 1, 0, 0⟩]
      (by simp) (by simp)⟩

/-- C7: fewer than two waypoints yield the empty trajectory, not an error,
for any window and step. -/
theorem c7_short_waypoint_lists (wps : List Waypoint) (s e step : ℚ)
    (h : wps.length < 2) : calculate_trajectory wps s e step = .ok [] := by
  unfold calculate_trajectory
  rw [if_pos h]

/-- Concrete instance of C7: the empty waypoint list. -/
theorem c7_witness :
    (([] : List Waypoint).length < 2) ∧
      calculate_trajectory ([] : List Waypoint) 0 100 5 = .ok [] :=
  ⟨by decide, c7_short_waypoint_lists [] 0 100 5 (by decide)⟩

/-- C3: with explicit times everywhere (and the nonzero maximum raw time the
rescaling formula presupposes), normalization returns exactly the waypoints
rescaled by `start + (raw / max_raw) * duration` with `z` defaulting to 50,
sorted by normalized time. -/
theorem c3_normalization_formula (wps : List Waypoint) (s e : ℚ)
    (ht : wps.all (fun w => w.time.isSome) = true) (hm : maxRawTime wps ≠ 0) :
    ∃ l, normalize_waypoint_times wps s e = .ok l ∧
      l.Perm (wps.map fun w =>
        (⟨w.x, w.y, w.z.getD 50, s + (w.time.getD 0 / maxRawTime wps) * (e - s)⟩ : P4)) ∧
      List.Sorted timeLe l := by
  unfold normalize_waypoint_times
  by_cases h0 : wps.isEmpty
  · rw [if_pos h0, List.isEmpty_iff.mp h0]
    exact ⟨[], rfl, List.Perm.refl [], List.sorted_nil⟩
  · rw [if_neg h0, if_pos ht, if_neg hm]
    exact ⟨_, rfl, List.perm_insertionSort timeLe _, List.sorted_insertionSort timeLe _⟩

/-- Concrete instance of C3: two timed waypoints, one missing z. -/
theorem c3_witness :
    (([⟨0, 0, none, some 1⟩, ⟨8, 4, some 7, some 2⟩] : List Waypoint).all
        (fun w => w.time.isSome) = true) ∧
    (maxRawTime [⟨0, 0, none, some 1⟩, ⟨8, 4, some 7, some 2⟩] ≠ 0) ∧
    (∃ l, normalize_waypoint_times [⟨0, 0, none, some 1⟩, ⟨8, 4, some 7, some 2⟩] 0 100 =
        .ok l ∧
      l.Perm (([⟨0, 0, none, some 1⟩, ⟨8, 4, some 7, some 2⟩] : List Waypoint).map fun w =>
        (⟨w.x, w.y, w.z.getD 50,
          0 + (w.time.getD 0 /
            maxRawTime [⟨0, 0, none, some 1⟩, ⟨8, 4, some 7, some 2⟩]) * (100 - 0)⟩ : P4)) ∧
      List.Sorted timeLe l) :=
  ⟨by decide, by decide,
    c3_normalization_formula [⟨0, 0, none, some 1⟩, ⟨8, 4, some 7, some 2⟩] 0 100
      (by decide) (by decide)⟩

/-- C1 counterexample: a structurally valid two-waypoint mission whose raw
times are all 0 makes `calculate_trajectory` hit the unguarded division
`wp['time'] / max(raw times)` (Python ZeroDivisionError) instead of
completing. -/
theorem c1_counterexample :
    calculate_trajectory
        ([⟨0, 0, none, some 0⟩, ⟨10, 0, none, some 0⟩] : List Waypoint) 0 100 5 =
      .error .zeroDivision := by
  rfl

/-- C1, amended: the sampler completes whenever the zero-maximum division
cannot fire and the sampling loop terminates (positive step or an empty
window); the detector completes on every input. -/
theorem c1_core_failure_conditions (wps : List Waypoint) (s e step : ℚ)
    (hmax : wps.all (fun w => w.time.isSome) = true → maxRawTime wps ≠ 0)
    (hstep : ¬ (s ≤ e ∧ step ≤ 0)) :
    (∃ pts, calculate_trajectory wps s e step = .ok pts) ∧
    (∀ (q : List TrajPoint) (others : List Flight) (b : ℚ),
      ∃ rep, check_conflicts q others b = .ok rep) := by
  constructor
  · by_cases hlen : wps.length < 2
    · refine ⟨[], ?_⟩
      unfold calculate_trajectory
      rw [if_pos hlen]
    · obtain ⟨nw, hnw⟩ := normalize_ok wps s e hmax
      refine ⟨appendFinal (sampleLoop nw s e step) nw e, ?_⟩
      unfold calculate_trajectory
      rw [if_neg hlen, hnw]
      show (if s ≤ e ∧ step ≤ 0 then (.error .nonTermination : Except PyError (List TrajPoint))
        else .ok (appendFinal (sampleLoop nw s e step) nw e)) =
          .ok (appendFinal (sampleLoop nw s e step) nw e)
      rw [if_neg hstep]
  · intro q others b
    obtain ⟨⟨cs, tot⟩, hloop⟩ := checkLoop_ok q b others
    have hck : check_conflicts q others b = .ok
        { conflicts := List.insertionSort conflictRel cs
          summary :=
            { total_checks := tot
              spatial_violations := cs.countP (fun c => c.type == "spatial")
              temporal_violations := cs.countP (fun c => c.type == "temporal")
              safe_segments := 0 }
          is_safe := cs.isEmpty
          total_conflicts := cs.length } := by
      unfold check_conflicts
      rw [hloop]
    exact ⟨_, hck⟩

/-- Concrete instance of the amended C1: distinct raw times, a positive
step, hypotheses discharged at that input. -/
theorem c1_witness :
    (([⟨0, 0, none, some 1⟩, ⟨10, 0, none, some 2⟩] : List Waypoint).all
        (fun w => w.time.isSome) = true →
      maxRawTime [⟨0, 0, none, some 1⟩, ⟨10, 0, none, some 2⟩] ≠ 0) ∧
    (¬ ((0 : ℚ) ≤ 100 ∧ (5 : ℚ) ≤ 0)) ∧
    ((∃ pts, calculate_trajectory [⟨0, 0, none, some 1⟩, ⟨10, 0, none, some 2⟩] 0 100 5 =
        .ok pts) ∧
      (∀ (q : List TrajPoint) (others : List Flight) (b : ℚ),
        ∃ rep, check_conflicts q others b = .ok rep)) :=
  ⟨by decide, by decide,
    c1_core_failure_conditions [⟨0, 0, none, some 1⟩, ⟨10, 0, none, some 2⟩] 0 100 5
      (by decide) (by decide)⟩

/-! ### End-point guarantee characterization -/

/-- No loop points: the guard `if trajectory_points` fails and nothing is
appended. -/
theorem appendFinal_of_nil {pts : List TrajPoint} {nw : List P4} {e : ℚ}
    (h : pts.getLast? = none) : appendFinal pts nw e = pts := by
  unfold appendFinal
  rw [h]

/-- Last loop point strictly before `end_time`: the synthetic end point is
appended. -/
theorem appendFinal_of_lt {pts : List TrajPoint} {nw : List P4} {e : ℚ}
    {lastPt : TrajPoint} (h : pts.getLast? = some lastPt) (hlt : lastPt.time < e) :
    appendFinal pts nw e = pts ++
      [{ time := e, x := (nw.getLastD ⟨0, 0, 0, 0⟩).x, y := (nw.getLastD ⟨0, 0, 0, 0⟩).y,
         z := (nw.getLastD ⟨0, 0, 0, 0⟩).z, speed := 0, heading := lastPt.heading }] := by
  unfold appendFinal
  rw [h]
  simp [hlt]

/-- Last loop point already at (or past) `end_time`: nothing is appended. -/
theorem appendFinal_of_ge {pts : List TrajPoint} {nw : List P4} {e : ℚ}
    {lastPt : TrajPoint} (h : pts.getLast? = some lastPt) (hge : ¬ lastPt.time < e) :
    appendFinal pts nw e = pts := by
  unfold appendFinal
  rw [h]
  simp [hge]

/-- Destructuring a successful `calculate_trajectory` call with at least two
waypoints: normalization succeeded and the result is the sampled loop with
the end-point guarantee applied. -/
theorem calculate_trajectory_ok_elim {wps : List Waypoint} {s e step : ℚ}
    {pts : List TrajPoint} (h2 : ¬ wps.length < 2)
    (h : calculate_trajectory wps s e step = .ok pts) :
    ∃ nw, normalize_waypoint_times wps s e = .ok nw ∧
      pts = appendFinal (sampleLoop nw s e step) nw e := by
  unfold calculate_trajectory at h
  rw [if_neg h2] at h
  split at h
  · exact absurd h (by simp)
  · rename_i nw hn
    split at h
    · exact absurd h (by simp)
    · injection h with h
      exact ⟨nw, hn, h.symm⟩

/-- Output-ordering property of a sampled trajectory result: whenever the
call returns a list, it is nonempty, weakly sorted by time, starts at or
after `start_time`, and ends exactly at `end_time`. -/
def trajTimesOk (s e : ℚ) (r : Except PyError (List TrajPoint)) : Prop :=
  ∀ pts, r = .ok pts → pts ≠ [] ∧ pts.Pairwise (fun a b => a.time ≤ b.time) ∧
    (∀ p0, pts.head? = some p0 → s ≤ p0.time) ∧
    (∀ pl, pts.getLast? = some pl → pl.time = e)

/-- C4: with at least two waypoints, a proper window and a positive step,
the returned sequence has non-decreasing times, starts at/after
`start_time` (in fact exactly at it) and ends exactly at `end_time`, a
synthetic final point being appended whenever the last sample is strictly
earlier. -/
theorem c4_trajectory_time_bounds (wps : List Waypoint) (s e step : ℚ)
    (h2 : 2 ≤ wps.length) (hse : s < e) (hstep : 0 < step) :
    trajTimesOk s e (calculate_trajectory wps s e step) := by
  intro pts hok
  obtain ⟨nw, hn, hpts⟩ := calculate_trajectory_ok_elim (not_lt.mpr h2) hok
  have hnw : nw ≠ [] := by
    intro hnil
    have hnwlen := normalize_length hn
    rw [hnil] at hnwlen
    have : wps.length = 0 := hnwlen.symm
    omega
  have htimes : (sampleLoop nw s e step).map (fun p => p.time) = sampleTimes s e step :=
    sampleLoop_times hnw s e step
  have hLne : sampleLoop nw s e step ≠ [] := by
    intro hnil
    have hne := sampleTimes_ne_nil (le_of_lt hse) hstep
    rw [← htimes, hnil] at hne
    exact hne rfl
  have hpair : (sampleLoop nw s e step).Pairwise (fun a b : TrajPoint => a.time ≤ b.time) := by
    have hp := sampleTimes_pairwise s e hstep
    rw [← htimes] at hp
    exact List.pairwise_map.mp hp
  have hhead : ∀ p0, (sampleLoop nw s e step).head? = some p0 → p0.time = s := by
    intro p0 h0
    have h1 := sampleTimes_head (le_of_lt hse) hstep
    rw [← htimes, List.head?_map, h0, Option.map_some'] at h1
    injection h1
  have hle : ∀ p ∈ sampleLoop nw s e step, p.time ≤ e := by
    intro p hp
    refine sampleTimes_le_end (le_of_lt hse) hstep p.time ?_
    rw [← htimes]
    exact List.mem_map.mpr ⟨p, hp, rfl⟩
  cases hlast : (sampleLoop nw s e step).getLast? with
  | none => exact absurd (List.getLast?_eq_none_iff.mp hlast) hLne
  | some lastPt =>
    by_cases hend : lastPt.time < e
    · rw [hpts, appendFinal_of_lt hlast hend]
      refine ⟨by simp, ?_, ?_, ?_⟩
      · rw [List.pairwise_append]
        refine ⟨hpair, List.pairwise_singleton _ _, ?_⟩
        intro a ha bb hbb
        rw [List.mem_singleton] at hbb
        subst hbb
        exact hle a ha
      · intro p0 h0
        cases hh : (sampleLoop nw s e step).head? with
        | none => exact absurd (List.head?_eq_none_iff.mp hh) hLne
        | some q =>
          rw [List.head?_append, hh, Option.or_some] at h0
          injection h0 with h0
          rw [← h0]
          exact le_of_eq (hhead q hh).symm
      · intro pl hl
        rw [List.getLast?_concat] at hl
        injection hl with hl
        rw [← hl]
    · rw [hpts, appendFinal_of_ge hlast hend]
      refine ⟨hLne, hpair, ?_, ?_⟩
      · intro p0 h0
        exact le_of_eq (hhead p0 h0).symm
      · intro pl hl
        rw [hlast] at hl
        injection hl with hl
        subst hl
        have hmem : lastPt ∈ sampleLoop nw s e step := by
          obtain ⟨hne', heq⟩ := List.mem_getLast?_eq_getLast hlast
          rw [heq]
          exact List.getLast_mem hne'
        exact le_antisymm (hle lastPt hmem) (not_lt.mp hend)

/-- Concrete instance of C4 at a two-waypoint mission over [0, 100] with
step 7. -/
theorem c4_witness :
    (2 ≤ ([⟨0, 0, none, none⟩, ⟨10, 0, none, some 3⟩] : List Waypoint).length) ∧
    ((0 : ℚ) < 100) ∧ ((0 : ℚ) < 7) ∧
    trajTimesOk 0 100
      (calculate_trajectory [⟨0, 0, none, none⟩, ⟨10, 0, none, some 3⟩] 0 100 7) :=
  ⟨by decide, by decide, by decide,
    c4_trajectory_time_bounds [⟨0, 0, none, none⟩, ⟨10, 0, none, some 3⟩] 0 100 7
      (by decide) (by decide) (by decide)⟩

/-- Speed property of a sampled trajectory result: whenever the call returns
a list, it splits into the loop-generated points, whose speeds all lie in
[5, 30], followed by at most one synthetic end point with speed exactly 0 at
`end_time`. -/
def speedSpec (e : ℚ) (r : Except PyError (List TrajPoint)) : Prop :=
  ∀ pts, r = .ok pts → ∃ main extra, pts = main ++ extra ∧
    (∀ q ∈ main, (5 : ℝ) ≤ q.speed ∧ q.speed ≤ 30) ∧
    (∀ q ∈ extra, q.speed = 0 ∧ q.time = e) ∧ extra.length ≤ 1

/-- C6: every returned point except the synthetic end point has speed in
[5, 30] (clamped segment speed or the default 15); the synthetic end point
appended at `end_time` has speed exactly 0. -/
theorem c6_speed_bounds (wps : List Waypoint) (s e step : ℚ) :
    speedSpec e (calculate_trajectory wps s e step) := by
  intro pts hok
  by_cases hlen : wps.length < 2
  · unfold calculate_trajectory at hok
    rw [if_pos hlen] at hok
    injection hok with hok
    refine ⟨[], [], hok.symm, ?_, ?_, ?_⟩
    · intro q hq
      exact absurd hq (List.not_mem_nil q)
    · intro q hq
      exact absurd hq (List.not_mem_nil q)
    · exact Nat.zero_le 1
  · obtain ⟨nw, hn, hpts⟩ := calculate_trajectory_ok_elim hlen hok
    have hnwlen : ¬ nw.length < 2 := by
      rw [normalize_length hn]
      exact hlen
    have hmain : ∀ q ∈ sampleLoop nw s e step, (5 : ℝ) ≤ q.speed ∧ q.speed ≤ 30 := by
      intro q hq
      obtain ⟨t, hspd⟩ := sampleLoop_mem_speed hq
      rw [hspd]
      exact calculate_speed_at_time_range nw t hnwlen
    cases hlast : (sampleLoop nw s e step).getLast? with
    | none =>
      rw [hpts, appendFinal_of_nil hlast]
      refine ⟨sampleLoop nw s e step, [], (List.append_nil _).symm, hmain, ?_, ?_⟩
      · intro q hq
        exact absurd hq (List.not_mem_nil q)
      · exact Nat.zero_le 1
    | some lastPt =>
      by_cases hend : lastPt.time < e
      · rw [hpts, appendFinal_of_lt hlast hend]
        refine ⟨sampleLoop nw s e step, _, rfl, hmain, ?_, ?_⟩
        · intro q hq
          rw [List.mem_singleton] at hq
          subst hq
          exact ⟨rfl, rfl⟩
        · exact le_refl 1
      · rw [hpts, appendFinal_of_ge hlast hend]
        refine ⟨sampleLoop nw s e step, [], (List.append_nil _).symm, hmain, ?_, ?_⟩
        · intro q hq
          exact absurd hq (List.not_mem_nil q)
        · exact Nat.zero_le 1

/-- Concrete instance of C8: the empty report of a check against no other
flights, hypothesis discharged by evaluation. -/
theorem c8_witness :
    (∀ c ∈ (Report.mk [] (Summary.mk 0 0 0 0) true 0).conflicts, c.type = "spatial") ∧
    (Report.mk [] (Summary.mk 0 0 0 0) true 0).summary.temporal_violations = 0 ∧
    (Report.mk [] (Summary.mk 0 0 0 0) true 0).summary.spatial_violations =
      (Report.mk [] (Summary.mk 0 0 0 0) true 0).total_conflicts ∧
    (Report.mk [] (Summary.mk 0 0 0 0) true 0).total_conflicts =
      (Report.mk [] (Summary.mk 0 0 0 0) true 0).conflicts.length :=
  c8_only_spatial_conflicts [] [] 50 (Report.mk [] (Summary.mk 0 0 0 0) true 0) rfl

/-- Concrete instance of C9: the empty report of a check against no other
flights, hypothesis discharged by evaluation. -/
theorem c9_witness :
    (Report.mk [] (Summary.mk 0 0 0 0) true 0).summary.total_checks =
      (([] : List Flight).map
        fun f => ([] : List TrajPoint).length * f.trajectory.length).sum :=
  c9_total_checks_product_sum [] [] 50 (Report.mk [] (Summary.mk 0 0 0 0) true 0) rfl
